import Mathlib

set_option maxRecDepth 4000

/-!
# Verification of the medical-exam-prep-bot question-generation core

A shallow embedding, in Lean 4, of the question-generation pipeline of the
`medical-exam-prep-bot` repository, together with theorems settling the
frozen claims about it.

Sources embedded:
* `core/agents/question_generator.py` — the regeneration controller
  (`_should_regenerate`) and the batch scheduler (`generate_batch_questions`);
* `core/agents/nodes.py` — the uniqueness evaluator (`_is_question_unique`,
  `_calculate_question_similarity`, `_extract_medical_terms`), the question
  cache (`_get_cached_questions`), the chunk-quality feedback
  (`_update_chunk_quality_scores`), the context selector (`retrieve_context`)
  and the validation stage (`validate_accuracy`);
* `storage/vector_store.py` — the FAISS-backed `search`.

Numbers that Python holds as floats are modelled as rationals (`ℚ`); Python
dictionaries as association lists or `Option`-valued records; exceptions as
`Option`/`Except` results.
-/

/- Batteries marks the `Rat` arithmetic operations `@[irreducible]`, which
blocks `decide` on concrete rational computations; restore the ordinary
reducibility so that the embedded similarity ratios evaluate. -/
set_option allowUnsafeReducibility true in
attribute [semireducible] Rat.add Rat.mul Rat.inv Rat.sub Rat.ofScientific

namespace MedBot

/-! ## Python string helpers

ASCII models of the Python `str` operations the repository applies to
question texts (`lower`, `split`, `isupper`).  All concrete strings in this
development are ASCII, where these agree with CPython. -/

def asciiIsUpper (c : Char) : Bool := 'A' ≤ c && c ≤ 'Z'

def asciiIsLower (c : Char) : Bool := 'a' ≤ c && c ≤ 'z'

def asciiIsAlpha (c : Char) : Bool := asciiIsUpper c || asciiIsLower c

def asciiLowerChar (c : Char) : Char :=
  if asciiIsUpper c then Char.ofNat (c.toNat + 32) else c

def asciiLower (s : String) : String :=
  String.mk (s.toList.map asciiLowerChar)

/-- Python `str.split()` with no argument: split on runs of whitespace,
dropping empty pieces. -/
def pySplit (s : String) : List String :=
  (s.split Char.isWhitespace).filter (· ≠ "")

/-- Python `w[0].isupper()` on a nonempty ASCII word. -/
def firstIsUpper (w : String) : Bool :=
  match w.toList with
  | [] => false
  | c :: _ => asciiIsUpper c

/-- Python `w.isupper()` on an ASCII word: at least one cased character and
no lowercase character. -/
def pyIsUpperWord (w : String) : Bool :=
  w.toList.any asciiIsAlpha && w.toList.all (fun c => !asciiIsLower c)

/-! ## Python float formatting

The uniqueness evaluator interpolates percentages into its reason strings
with `f"{x:.1f}"` and `f"{x:.0f}"`.  CPython rounds half-to-even; we do the
same on `ℚ`.  (All values actually formatted in this development are exact
in binary floating point, so the `ℚ` model and CPython render identically.) -/

def roundHalfEven (q : ℚ) : ℤ :=
  let fl := ⌊q⌋
  let fr := q - fl
  if fr < 1/2 then fl
  else if 1/2 < fr then fl + 1
  else if fl % 2 = 0 then fl else fl + 1

/-- Python `f"{q:.1f}"` for a nonnegative value. -/
def formatFixed1 (q : ℚ) : String :=
  let n := (roundHalfEven (q * 10)).toNat
  toString (n / 10) ++ "." ++ toString (n % 10)

/-- Python `f"{q:.0f}"` for a nonnegative value. -/
def formatFixed0 (q : ℚ) : String :=
  toString (roundHalfEven q).toNat

end MedBot

namespace Difflib

/-!  ## `difflib.SequenceMatcher` (CPython standard library)

`nodes.py` measures question similarity with
`difflib.SequenceMatcher(None, q1.lower(), q2.lower()).ratio()`.
This section embeds that algorithm (Ratcliff–Obershelp as implemented in
CPython's `difflib`) over `List Char`:

* `__chain_b`'s autojunk: with no junk predicate (`isjunk = None`, as in
  `nodes.py`), the junk set `bjunk` is empty; when `len(b) >= 200`,
  characters occurring more than `len(b)//100 + 1` times are "popular" and
  are removed from `b2j`.
* `find_longest_match`: the j2len dynamic program over `b2j`, followed by
  the two extension loops over non-junk characters.  (The two further
  extension loops over *junk* characters are dead code here because the
  junk set is empty.)
* `get_matching_blocks` / `ratio`: `ratio` only needs the total matched
  size, which is the sum of `find_longest_match` sizes over the recursive
  split; the recursion is written with fuel, `|a| + |b| + 1` being ample
  since every recursive call strictly shrinks the window. -/

/-- Characters of `b` removed from `b2j` by autojunk. -/
def isPopular (b : List Char) (c : Char) : Bool :=
  decide (200 ≤ b.length) && decide (b.length / 100 + 1 < b.count c)

/-- The positions `j ∈ [blo, bhi)` with `b[j] = c`, ascending — the list
`b2j.get(a[i], nothing)` as traversed by `find_longest_match` (entries below
`blo` are skipped, entries at or above `bhi` end the scan). -/
def b2jWindow (b : List Char) (c : Char) (blo bhi : Nat) : List Nat :=
  if isPopular b c then []
  else (List.range b.length).filter
    (fun j => decide (blo ≤ j) && decide (j < bhi) && decide (b.get? j = some c))

/-- One row (one value of `i`) of the `find_longest_match` dynamic program.
`j2len` is the previous row, read at `j - 1`; the new row and the running
best `(besti, bestj, bestsize)` are accumulated left to right, the best
updated only on strict improvement. -/
def flmRow (b : List Char) (blo bhi : Nat) (j2len : Nat → Nat) (i : Nat) (c : Char)
    (best : Nat × Nat × Nat) : (Nat → Nat) × (Nat × Nat × Nat) :=
  (b2jWindow b c blo bhi).foldl
    (fun (acc : (Nat → Nat) × (Nat × Nat × Nat)) j =>
      let k := (if j = 0 then 0 else j2len (j - 1)) + 1
      let row : Nat → Nat := fun x => if x = j then k else acc.1 x
      let best := if acc.2.2.2 < k then (i + 1 - k, j + 1 - k, k) else acc.2
      (row, best))
    ((fun _ => 0), best)

/-- The dynamic-programming part of `find_longest_match` on the window
`[alo, ahi) × [blo, bhi)`, before the extension loops. -/
def flmCore (a b : List Char) (alo ahi blo bhi : Nat) : Nat × Nat × Nat :=
  (((List.range ahi).drop alo).foldl
    (fun (st : (Nat → Nat) × (Nat × Nat × Nat)) i =>
      match a.get? i with
      | none => st
      | some c => flmRow b blo bhi st.1 i c st.2)
    ((fun _ => 0), (alo, blo, 0))).2

/-- The first extension loop of `find_longest_match`: grow the block
backwards over equal (non-junk) characters. -/
def flmExtendBack (a b : List Char) (alo blo : Nat) :
    Nat → Nat × Nat × Nat → Nat × Nat × Nat
  | 0, st => st
  | fuel + 1, (bi, bj, bs) =>
    if alo < bi ∧ blo < bj ∧ (a.get? (bi - 1)).isSome ∧ a.get? (bi - 1) = b.get? (bj - 1) then
      flmExtendBack a b alo blo fuel (bi - 1, bj - 1, bs + 1)
    else (bi, bj, bs)

/-- The second extension loop of `find_longest_match`: grow the block
forwards over equal (non-junk) characters. -/
def flmExtendFwd (a b : List Char) (ahi bhi : Nat) :
    Nat → Nat × Nat × Nat → Nat × Nat × Nat
  | 0, st => st
  | fuel + 1, (bi, bj, bs) =>
    if bi + bs < ahi ∧ bj + bs < bhi ∧ (a.get? (bi + bs)).isSome ∧
        a.get? (bi + bs) = b.get? (bj + bs) then
      flmExtendFwd a b ahi bhi fuel (bi, bj, bs + 1)
    else (bi, bj, bs)

/-- Model of `SequenceMatcher.find_longest_match` on `[alo, ahi) × [blo, bhi)`
(with empty junk set). -/
def findLongestMatch (a b : List Char) (alo ahi blo bhi : Nat) : Nat × Nat × Nat :=
  let st := flmCore a b alo ahi blo bhi
  let st := flmExtendBack a b alo blo st.1 st
  flmExtendFwd a b ahi bhi (ahi + bhi) st

/-- Total matched size over the recursive window split of
`get_matching_blocks` (fuelled; each call strictly shrinks the window). -/
def matchSum (a b : List Char) : Nat → Nat → Nat → Nat → Nat → Nat
  | 0, _, _, _, _ => 0
  | fuel + 1, alo, ahi, blo, bhi =>
    let m := findLongestMatch a b alo ahi blo bhi
    let i := m.1
    let j := m.2.1
    let k := m.2.2
    if k = 0 then 0
    else k + matchSum a b fuel alo i blo j + matchSum a b fuel (i + k) ahi (j + k) bhi

/-- Model of `SequenceMatcher(None, a, b).ratio()`:
`2 * matches / (len(a) + len(b))`, and `1.0` for two empty sequences. -/
def ratio (a b : List Char) : ℚ :=
  let m := matchSum a b (a.length + b.length + 1) 0 a.length 0 b.length
  if a.length + b.length = 0 then 1
  else (2 * m : ℚ) / (a.length + b.length : ℚ)

end Difflib

namespace MedBot

/-! ## `nodes.py`: similarity, medical terms, uniqueness -/

/-- Model of `QuestionGeneratorNodes._calculate_question_similarity`:
`difflib.SequenceMatcher(None, q1.lower(), q2.lower()).ratio()`. -/
def calculateQuestionSimilarity (q1 q2 : String) : ℚ :=
  Difflib.ratio (asciiLower q1).toList (asciiLower q2).toList

/-- Model of `QuestionGeneratorNodes._extract_medical_terms`:
`[w.lower() for w in text.split() if len(w) > 4 and (w[0].isupper() or w.isupper())]`. -/
def extractMedicalTerms (text : String) : List String :=
  ((pySplit text).filter
    (fun w => decide (4 < w.length) && (firstIsUpper w || pyIsUpperWord w))).map asciiLower

/-- The reason string of a text-similarity rejection in
`_is_question_unique`. -/
def textSimReason (sim thr : ℚ) : String :=
  "Text similarity " ++ formatFixed1 (sim * 100) ++ "% exceeds threshold (" ++
    formatFixed0 (thr * 100) ++ "%)"

/-- The reason string of a term-overlap rejection in `_is_question_unique`. -/
def termOverlapReason (ov : ℚ) : String :=
  "Medical term overlap " ++ formatFixed1 (ov * 100) ++ "% too high"

/-- The Jaccard overlap `len(new & existing) / len(new | existing)` of the
two deduplicated term lists. -/
def termJaccard (newTerms existingTerms : List String) : ℚ :=
  ((newTerms.dedup.inter existingTerms.dedup).length : ℚ) /
    ((newTerms.dedup.union existingTerms.dedup).length : ℚ)

/-- Model of `QuestionGeneratorNodes._is_question_unique`, with the chapter's
existing question texts passed as the list the cache lookup produced.
Scans in stored order; returns on the first violation.  The threshold
parameter defaults to `0.55` at both call sites. -/
def isQuestionUnique (newQuestion : String) (thr : ℚ) :
    List String → Bool × String
  | [] => (true, "Question is unique")
  | existing :: rest =>
    let sim := calculateQuestionSimilarity newQuestion existing
    if thr < sim then (false, textSimReason sim thr)
    else
      let newTerms := extractMedicalTerms newQuestion
      let existingTerms := extractMedicalTerms existing
      if newTerms ≠ [] ∧ existingTerms ≠ [] ∧
          (7 : ℚ)/10 < termJaccard newTerms existingTerms then
        (false, termOverlapReason (termJaccard newTerms existingTerms))
      else isQuestionUnique newQuestion thr rest

/-! ## `question_generator.py`: the regeneration controller -/

/-- Model of `ValidationResult` (spec §3), as consumed by the controller and stored
by `validate_accuracy`.  `confidence_score` is rational (CPython floats). -/
structure ValidationResult where
  is_valid : Bool
  confidence_score : ℚ
  medical_accuracy : Bool
  issues : List String
deriving DecidableEq

/-- The two configuration values the controller reads (`config.py` defaults:
`MAX_REGENERATION_ATTEMPTS = 2`, `VALIDATION_CONFIDENCE_THRESHOLD = 80`). -/
structure GenConfig where
  maxRegenerationAttempts : Nat
  validationConfidenceThreshold : ℚ
deriving DecidableEq

/-- The `config.py` defaults. -/
def defaultConfig : GenConfig := ⟨2, 80⟩

/-- The three conditional-edge labels returned by `_should_regenerate`. -/
inductive Route
  | regenerate
  | cont
  | fail
deriving DecidableEq

/-- Model of `QuestionGeneratorAgent._should_regenerate`: the routing decision taken
after VALIDATE, as a function of the state's `validation_result`
(`none` models a falsy value) and `generation_attempt`. -/
def shouldRegenerate (cfg : GenConfig) (validation : Option ValidationResult)
    (attempt : Nat) : Route :=
  match validation with
  | none => .fail
  | some v =>
    if cfg.maxRegenerationAttempts ≤ attempt then
      if v.is_valid = false then .fail else .cont
    else if v.medical_accuracy = false then .regenerate
    else if v.is_valid = false ∨ v.confidence_score < cfg.validationConfidenceThreshold then
      .regenerate
    else .cont

/-- The decision procedure exactly as the claim words it, five cases in
order: (1) no validation result ⇒ FAIL; (2) attempt exhaustion ⇒ CONTINUE
iff valid; (3) failed medical accuracy ⇒ REGENERATE; (4) invalid or
under-confident ⇒ REGENERATE; (5) otherwise CONTINUE. -/
def routeClaimSpec (cfg : GenConfig) (validation : Option ValidationResult)
    (attempt : Nat) : Route :=
  match validation with
  | none => .fail
  | some v =>
    if attempt ≥ cfg.maxRegenerationAttempts then
      if v.is_valid then .cont else .fail
    else if ¬ v.medical_accuracy then .regenerate
    else if ¬ v.is_valid ∨ v.confidence_score < cfg.validationConfidenceThreshold then
      .regenerate
    else .cont

/-! ## `nodes.py`: the validation stage -/

/-- The `uniqueness_check` entry stored on the state by
`generate_question`. -/
structure UniquenessCheck where
  is_unique : Bool
  reason : String
deriving DecidableEq

/-- Model of `QuestionGeneratorNodes.validate_accuracy`, as a function of the
state's `uniqueness_check` and of the outcome of the judge call.  Returns
the stored `validation_result` paired with whether the judge was invoked;
`none` models the uncaught `AttributeError` raised by
`state.get('uniqueness_check', {}).get(...)` when the key holds `None`. -/
def validateAccuracy (uc : Option UniquenessCheck)
    (judge : Except String ValidationResult) :
    Option (ValidationResult × Bool) :=
  match uc with
  | none => none
  | some u =>
    if u.is_unique = false then
      some ({ is_valid := false, confidence_score := 0,
              medical_accuracy := true, issues := [u.reason] }, false)
    else
      match judge with
      | .ok v => some (v, true)
      | .error e =>
        some ({ is_valid := false, confidence_score := 0,
                medical_accuracy := false, issues := [e] }, true)

/-! ## The per-chapter store/cache system (claim C2)

`_get_cached_questions` serves uniqueness checks from a snapshot up to 30
seconds old; questions accepted by the pipeline are appended to the
`questions` collection by the caller (pages/3) without invalidating that
snapshot.  The system below has the two relevant transitions: a cache
refresh (TTL expiry / first load) and one pipeline instance accepting a
candidate after checking it against the cached snapshot.  (A judge
rejection only suppresses a store, which cannot break a pairwise
invariant, so acceptance is the adversarial case and is modelled as
following the uniqueness verdict.) -/

/-- One chapter's stored question texts plus the cached snapshot. -/
structure ChapterState where
  store : List String
  cache : List String
deriving DecidableEq

/-- Events of the chapter system. -/
inductive CacheEv
  /-- `_get_cached_questions` reloads from disk (cache older than 30 s). -/
  | refresh
  /-- a pipeline instance runs with candidate text `q`: `_is_question_unique`
  is evaluated against the cached snapshot and the question is stored iff
  it passes. -/
  | tryAccept (q : String)
deriving DecidableEq

def chapterStep (s : ChapterState) : CacheEv → ChapterState
  | .refresh => { s with cache := s.store }
  | .tryAccept q =>
    if (isQuestionUnique q (11/20) s.cache).1 then
      { s with store := s.store ++ [q] }
    else s

def chapterRun (s : ChapterState) (evs : List CacheEv) : ChapterState :=
  evs.foldl chapterStep s

def chapterInit : ChapterState := ⟨[], []⟩

/-- The claimed invariant: every stored question has case-insensitive
lexical similarity ≤ 0.55 against every prior stored question, similarity
directed as the accept-time check computes it
(`_calculate_question_similarity(new, prior)`). -/
def SimilarityInvariant (store : List String) : Prop :=
  store.Pairwise (fun prior later => calculateQuestionSimilarity later prior ≤ 11/20)

/-- The fresh-cache discipline of the amended claim: every accept is
immediately preceded by a cache refresh, so the uniqueness check reads a
snapshot equal to the current store. -/
def freshEvents (qs : List String) : List CacheEv :=
  (qs.map (fun q => [CacheEv.refresh, CacheEv.tryAccept q])).flatten

/-! ## The single-instance pipeline loop (claim C3)

The LangGraph cycle `generate_question → validate_accuracy →
(_should_regenerate) → …`.  One event per node execution; `pipeStep`
returns `none` when the event does not apply in the current phase, so a
run is a legal node interleaving iff `pipeRun` returns `some`. -/

inductive PipePhase
  | generating
  | validating
  | deciding
  | finished
  | failedPhase
  | aborted
deriving DecidableEq

/-- The slice of `QuestionState` the loop dynamics read. -/
structure PipeState where
  phase : PipePhase
  generationAttempt : Nat
  /-- how many times the GENERATE node has run. -/
  generateCalls : Nat
  uniquenessUnique : Option Bool
  validationResult : Option ValidationResult
  errorFlag : Bool
deriving DecidableEq

inductive PipeEv
  /-- `generate_question` runs and its `try` block succeeds; the fresh
  draft's uniqueness verdict is `u`; `generation_attempt` is incremented. -/
  | generateOk (u : Bool)
  /-- `generate_question` runs and the provider call raises: the error is
  recorded and — the increment sitting inside the `try` block —
  `generation_attempt` is *not* incremented; `uniqueness_check` and
  `question_draft` keep their previous values. -/
  | generateErr
  /-- `validate_accuracy` runs; `outcome` is the judge call's result, `none`
  meaning the judge raised (used only when the uniqueness short-circuit
  does not fire). -/
  | validateStep (outcome : Option ValidationResult)
  /-- the conditional edge evaluates `_should_regenerate`. -/
  | decideStep
deriving DecidableEq

/-- One node execution.  In `validateStep`, an absent `uniqueness_check`
(first-attempt generation error) raises `AttributeError` out of the graph
(`aborted`); a failed check short-circuits to the pessimistic-but-accurate
result; otherwise the judge outcome is parsed, a judge error producing the
conservative result.  (Issue strings do not influence routing and are
elided as `[]`.) -/
def pipeStep (cfg : GenConfig) (s : PipeState) : PipeEv → Option PipeState
  | .generateOk u =>
    if s.phase = .generating then
      some { s with
        phase := .validating
        generationAttempt := s.generationAttempt + 1
        generateCalls := s.generateCalls + 1
        uniquenessUnique := some u }
    else none
  | .generateErr =>
    if s.phase = .generating then
      some { s with
        phase := .validating
        generateCalls := s.generateCalls + 1
        errorFlag := true }
    else none
  | .validateStep outcome =>
    if s.phase = .validating then
      match s.uniquenessUnique with
      | none => some { s with phase := .aborted }
      | some false =>
        some { s with
          phase := .deciding
          validationResult := some ⟨false, 0, true, []⟩ }
      | some true =>
        match outcome with
        | some v => some { s with phase := .deciding, validationResult := some v }
        | none =>
          some { s with
            phase := .deciding
            validationResult := some ⟨false, 0, false, []⟩ }
    else none
  | .decideStep =>
    if s.phase = .deciding then
      match shouldRegenerate cfg s.validationResult s.generationAttempt with
      | .regenerate => some { s with phase := .generating }
      | .cont => some { s with phase := .finished }
      | .fail => some { s with phase := .failedPhase }
    else none

def pipeRun (cfg : GenConfig) (s : PipeState) : List PipeEv → Option PipeState
  | [] => some s
  | e :: rest => (pipeStep cfg s e).bind (fun s' => pipeRun cfg s' rest)

/-- The state on entering the first GENERATE (after RETRIEVE). -/
def pipeInit : PipeState := ⟨.generating, 0, 0, none, none, false⟩

/-- No generation call in the run ends in a provider error. -/
def noGenerateErr (evs : List PipeEv) : Bool :=
  evs.all (fun e => decide (e ≠ PipeEv.generateErr))

/-! ## `storage/vector_store.py`: `LocalVectorStore.search`

The FAISS `IndexFlatL2` collaborator is modelled over exact rationals:
for a query it reports the `search_k` nearest stored vectors by squared L2
distance in ascending order, and — as FAISS does when fewer than
`search_k` vectors are stored — pads the remaining slots with label `-1`
and distance `FLT_MAX`.  Ties are ranked by ascending position. -/

/-- The metadata dictionary attached to a stored vector (the fields
`search` reads). -/
structure VMeta where
  chapter_id : Option Int
  chunk_index : Option Nat
deriving DecidableEq

/-- One element of the list `search` returns. -/
structure SearchHit where
  metadata : VMeta
  score : ℚ
  index : Int
deriving DecidableEq

/-- Squared L2 distance, the `IndexFlatL2` metric. -/
def sqDist (u v : List ℚ) : ℚ := (List.zipWith (fun a b => (a - b) ^ 2) u v).sum

/-- Model of `FLT_MAX`, the distance FAISS reports for padded slots. -/
def fltMax : ℚ := 340282346638528859811704183484516925440

/-- Ranking of `(squared distance, position)` candidate pairs. -/
def distLe (x y : ℚ × Int) : Prop := x.1 < y.1 ∨ (x.1 = y.1 ∧ x.2 ≤ y.2)

instance : DecidableRel distLe := fun x y => by unfold distLe; infer_instance

/-- Model of `faiss.IndexFlatL2.search` on one query vector. -/
def faissSearch (vecs : List (List ℚ)) (q : List ℚ) (sk : Nat) : List (ℚ × Int) :=
  let pairs := vecs.enum.map (fun p => (sqDist q p.2, (p.1 : Int)))
  let sorted := pairs.insertionSort distLe
  sorted.take sk ++ List.replicate (sk - pairs.length) (fltMax, -1)

/-- Python list subscription `l[i]`: negative indices count from the end;
`none` models `IndexError`. -/
def pyGetElem {α : Type} (l : List α) (i : Int) : Option α :=
  if 0 ≤ i then l.get? i.toNat
  else if 0 ≤ i + l.length then l.get? (i + l.length).toNat
  else none

/-- The loop-body test `filter_chapter and meta.get('chapter_id') !=
filter_chapter`: a falsy filter (absent, or the integer 0) never discards. -/
def dropHit (filt : Option Int) (m : VMeta) : Bool :=
  match filt with
  | none => false
  | some c => if c = 0 then false else decide (m.chapter_id ≠ some c)

/-- The result-collection loop of `search`: skip labels at or beyond
`len(metadata)` (note `-1` passes this guard), subscript the metadata
list, apply the chapter filter, stop as soon as `k` hits are collected. -/
def collectHits (metas : List VMeta) (filt : Option Int) (k : Nat) :
    List (ℚ × Int) → List SearchHit → Option (List SearchHit)
  | [], acc => some acc
  | (dist, idx) :: rest, acc =>
    if (metas.length : Int) ≤ idx then collectHits metas filt k rest acc
    else
      match pyGetElem metas idx with
      | none => none
      | some meta =>
        if dropHit filt meta then collectHits metas filt k rest acc
        else
          let acc' := acc ++ [⟨meta, dist, idx⟩]
          if k ≤ acc'.length then some acc' else collectHits metas filt k rest acc'

/-- Model of `LocalVectorStore.search`: `search_k = k * 3 if filter_chapter else k`,
then the collection loop over the FAISS results. -/
def search (vecs : List (List ℚ)) (metas : List VMeta) (q : List ℚ)
    (k : Nat) (filt : Option Int) : Option (List SearchHit) :=
  let filtTruthy : Bool := match filt with | none => false | some c => decide (c ≠ 0)
  let sk := if filtTruthy then k * 3 else k
  collectHits metas filt k (faissSearch vecs q sk) []

/-! ## `question_generator.py`: the batch scheduler -/

/-- The successive batch sizes of `generate_batch_questions`' loop
`for i in range(0, count, max_concurrent): batch_size = min(max_concurrent,
count - i)`, as recursion on the remaining count (each iteration removes
exactly `batch_size` from it).  The fuel argument makes the recursion
structural; `fuel = count` is ample whenever `mc ≥ 1`. -/
def batchSizes (mc : Nat) : Nat → Nat → List Nat
  | 0, _ => []
  | _, 0 => []
  | fuel + 1, rem + 1 =>
    let bs := min mc (rem + 1)
    bs :: batchSizes mc fuel (rem + 1 - bs)

/-- Per batch: launch the instances, `await asyncio.gather(...,
return_exceptions=True)`, keep the results passing `isinstance(q, dict)`
(an instance yielding `None` — a FAIL — or an exception contributes
nothing), extend the running list, move to the next batch. -/
def runBatchChunks {Q : Type} : List Nat → List (Option Q) → List Q
  | [], _ => []
  | bs :: rest, outcomes =>
    (outcomes.take bs).filterMap id ++ runBatchChunks rest (outcomes.drop bs)

/-- Model of `QuestionGeneratorAgent.generate_batch_questions`, as a function of the
per-instance outcomes (in launch order; `none` = failure or exception).
`none` overall models the `ValueError` Python raises for
`range(0, count, 0)`. -/
def generateBatchQuestions {Q : Type} (count mc : Nat)
    (outcomes : List (Option Q)) : Option (List Q) :=
  if mc = 0 then none
  else some (runBatchChunks (batchSizes mc count count) outcomes)

/-! ## `nodes.py`: `_update_chunk_quality_scores` -/

/-- A `chunk_quality` record: rolling score history and its average. -/
structure QRec where
  scores : List ℚ
  avg : ℚ
deriving DecidableEq

/-- Python `l[-n:]`. -/
def lastN {α : Type} (n : Nat) (l : List α) : List α := l.drop (l.length - n)

/-- Lookup in the `quality_data` dictionary (keys are the stringified
chunk indices; modelled by the indices themselves). -/
def dictGet (d : List (Nat × QRec)) (k : Nat) : Option QRec :=
  (d.find? (fun p => decide (p.1 = k))).map Prod.snd

/-- Assignment `quality_data[k] = v`. -/
def dictSet (d : List (Nat × QRec)) (k : Nat) (v : QRec) : List (Nat × QRec) :=
  match d with
  | [] => [(k, v)]
  | (k', v') :: rest => if k' = k then (k, v) :: rest else (k', v') :: dictSet rest k v

/-- The loop body of `_update_chunk_quality_scores` for one chunk id:
insert the default record if absent, append the score, truncate to the
last 10, recompute the arithmetic mean. -/
def updateOneChunk (d : List (Nat × QRec)) (cid : Nat) (score : ℚ) :
    List (Nat × QRec) :=
  let rec0 := (dictGet d cid).getD ⟨[], 0⟩
  let scores' := lastN 10 (rec0.scores ++ [score])
  dictSet d cid ⟨scores', scores'.sum / (scores'.length : ℚ)⟩

/-- Model of `_update_chunk_quality_scores(chunks, score)`: iterate over the chunk
ids `chunk['metadata']['chunk_index']` of `chunks[:3]`. -/
def updateChunkQualityScores (d : List (Nat × QRec)) (chunkIds : List Nat)
    (score : ℚ) : List (Nat × QRec) :=
  (chunkIds.take 3).foldl (fun acc cid => updateOneChunk acc cid score) d

/-! ## `nodes.py`: the chunk-selection part of `retrieve_context` -/

/-- A search result as the selector sees it: its metadata `chunk_index`
plus an abstract tag standing for the rest of the payload. -/
structure RChunk where
  chunk_index : Option Nat
  tag : Nat
deriving DecidableEq

/-- Model of `used_chunk_indices`: every `source_chunks` entry of the last 20
questions (membership-equivalent to the Python set). -/
def usedChunkIndices (existing : List (List Nat)) : List Nat :=
  (lastN 20 existing).flatten

/-- Model of `r['metadata'].get('chunk_index') in used_chunk_indices` (an absent
index is never in the set). -/
def isUsedChunk (used : List Nat) (r : RChunk) : Bool :=
  match r.chunk_index with
  | some i => decide (i ∈ used)
  | none => false

/-- Model of `unused_results`: the retrieved results whose `chunk_index` is not
referenced by any of the last 20 questions' `source_chunks`. -/
def unusedResultsOf (results : List RChunk) (existing : List (List Nat)) :
    List RChunk :=
  results.filter (fun r => !isUsedChunk (usedChunkIndices existing) r)

/-- Model of `used_results`: the complementary partition. -/
def usedResultsOf (results : List RChunk) (existing : List (List Nat)) :
    List RChunk :=
  results.filter (fun r => isUsedChunk (usedChunkIndices existing) r)

/-- The chunk-selection logic of `retrieve_context` (nodes.py 169–193),
`existing` being the chapter's questions represented by their
`source_chunks` and `n = config['chunks_to_use']`.  The three
`random.shuffle` calls are modelled by the oracles `shufU`, `shufV`,
`shufAll`, constrained to be permutations in the theorems. -/
def selectChunks (results : List RChunk) (existing : List (List Nat)) (n : Nat)
    (shufU shufV shufAll : List RChunk → List RChunk) : List RChunk :=
  if existing ≠ [] then
    if n ≤ (unusedResultsOf results existing).length then
      (shufU (unusedResultsOf results existing)).take n
    else
      (shufU (unusedResultsOf results existing) ++
        shufV (usedResultsOf results existing)).take n
  else (shufAll results).take n

/-! # Theorems -/

/-- Claim C1: The controller's decision after VALIDATE is a pure function of
`(validation_result, generation_attempt, config)` evaluated in exactly the
claimed five-case order (`routeClaimSpec`); in particular, with
`max_regeneration_attempts = 2` and threshold 80, a validation result
`{confidence_score: 50, is_valid: true, medical_accuracy: true}` yields
REGENERATE at attempt 1 and CONTINUE at attempt 2. -/
theorem c1_controller_decision_order :
    (∀ (cfg : GenConfig) (validation : Option ValidationResult) (attempt : Nat),
      shouldRegenerate cfg validation attempt = routeClaimSpec cfg validation attempt)
    ∧ shouldRegenerate defaultConfig (some ⟨true, 50, true, []⟩) 1 = Route.regenerate
    ∧ shouldRegenerate defaultConfig (some ⟨true, 50, true, []⟩) 2 = Route.cont := by
  refine ⟨?_, by decide, by decide⟩
  intro cfg v a
  cases v with
  | none => rfl
  | some v =>
    cases hv : v.is_valid <;> cases hm : v.medical_accuracy <;>
      simp [shouldRegenerate, routeClaimSpec, hv, hm, ge_iff_le]

/-- Claim C5: Entering VALIDATE with a failed uniqueness check returns
exactly `{is_valid: false, confidence_score: 0, issues: [reason],
medical_accuracy: true}` without calling the judge; a failed judge call
returns exactly `{is_valid: false, confidence_score: 0, issues: [error],
medical_accuracy: false}` instead of propagating; a successful judge call
is returned as parsed. -/
theorem c5_validation_error_paths :
    ∀ (r e : String) (judge : Except String ValidationResult) (v : ValidationResult),
      validateAccuracy (some ⟨false, r⟩) judge =
        some ({ is_valid := false, confidence_score := 0,
                medical_accuracy := true, issues := [r] }, false)
      ∧ validateAccuracy (some ⟨true, r⟩) (Except.error e) =
        some ({ is_valid := false, confidence_score := 0,
                medical_accuracy := false, issues := [e] }, true)
      ∧ validateAccuracy (some ⟨true, r⟩) (Except.ok v) = some (v, true) := by
  intro r e judge v
  exact ⟨rfl, rfl, rfl⟩

/-- Claim C10: When the index holds fewer vectors than the requested
candidate count, the padded `-1` labels pass the `idx >= len(metadata)`
guard, and Python's negative subscription makes `search` emit a hit whose
`index` field is `-1` and whose metadata is the *last* element of the
metadata list — a spurious duplicate of the last stored entry.  Concretely:
one stored vector, `search(q, k=2)` returns the real hit followed by a
`-1`-indexed copy of the last metadata entry. -/
theorem c10_padding_hit :
    search [[0, 0]] [⟨some 7, some 0⟩] [0, 1] 2 none =
      some [⟨⟨some 7, some 0⟩, 1, 0⟩, ⟨⟨some 7, some 0⟩, fltMax, -1⟩]
    ∧ ([(⟨some 7, some 0⟩ : VMeta)].getLast? = some ⟨some 7, some 0⟩) := by
  exact ⟨by decide, rfl⟩

/-- Claim C2, counterexample: Two accepts against a cached snapshot that
predates both (stale but within the 30-second TTL) store the very same
text twice: the resulting store violates the claimed pairwise ≤ 0.55
similarity invariant, since the second copy has similarity 1 to the
first. -/
theorem c2_stale_cache_counterexample :
    chapterRun chapterInit
        [CacheEv.refresh, CacheEv.tryAccept "Qqqqq", CacheEv.tryAccept "Qqqqq"] =
      ⟨["Qqqqq", "Qqqqq"], []⟩
    ∧ ¬ SimilarityInvariant ["Qqqqq", "Qqqqq"] := by
  refine ⟨by decide, ?_⟩
  simp only [SimilarityInvariant]
  decide

/-- Claim C3, counterexample: With `max_regeneration_attempts = 2`: a first
generation succeeds (attempt 1) and is sent back for regeneration
(confidence 50 < 80); the second GENERATE run hits a provider error, which
records the error *without* incrementing the attempt counter; validation
of the stale draft fails at the judge, the pessimistic result routes to
REGENERATE (attempt still 1 < 2), and a third GENERATE run happens: the
GENERATE stage runs 3 > 2 times. -/
theorem c3_generate_calls_counterexample :
    (pipeRun defaultConfig pipeInit
        [PipeEv.generateOk true,
         PipeEv.validateStep (some ⟨true, 50, true, []⟩),
         PipeEv.decideStep,
         PipeEv.generateErr,
         PipeEv.validateStep none,
         PipeEv.decideStep,
         PipeEv.generateOk true]).map PipeState.generateCalls = some 3
    ∧ defaultConfig.maxRegenerationAttempts < 3 := by
  exact ⟨by decide, by decide⟩

/-- Claim C6, counterexample: The truthiness test `if filter_chapter`
treats the chapter filter 0 as "no filter": with a single stored vector
whose metadata chapter is 1, `search(q, k=1, filter_chapter=0)` requests
only `k` (not `k*3`) candidates and returns a hit whose `chapter_id`
differs from the supplied filter value. -/
theorem c6_zero_filter_counterexample :
    search [[0]] [⟨some 1, some 0⟩] [0] 1 (some 0) =
      some [⟨⟨some 1, some 0⟩, 0, 0⟩]
    ∧ (⟨some 1, some 0⟩ : VMeta).chapter_id ≠ some 0 := by
  exact ⟨by decide, by decide⟩

/-- Claim C9, counterexample: On a chapter with no prior questions the code
samples `results[:chunks_to_use]` after a shuffle, so when fewer than
`chunks_to_use` results exist the selection has fewer than `chunks_to_use`
chunks — here 1 instead of 3. -/
theorem c9_short_results_counterexample :
    (selectChunks [⟨some 1, 0⟩] [] 3 id id id).length = 1 ∧ (1 : Nat) ≠ 3 := by
  exact ⟨rfl, by decide⟩

/-- A passing uniqueness check bounds the candidate's similarity to every
question on the list it was checked against. -/
theorem isQuestionUnique_true_sim_le (q : String) (thr : ℚ) :
    ∀ (l : List String), (isQuestionUnique q thr l).1 = true →
      ∀ p ∈ l, calculateQuestionSimilarity q p ≤ thr := by
  intro l
  induction l with
  | nil => exact fun _ p hp => absurd hp (List.not_mem_nil p)
  | cons x rest ih =>
    intro h p hp
    simp only [isQuestionUnique] at h
    split at h
    · exact absurd h (by simp)
    next hs =>
      split at h
      · exact absurd h (by simp)
      next =>
        rcases List.mem_cons.mp hp with rfl | hp'
        · exact le_of_not_lt hs
        · exact ih h p hp'

/-- A fresh-cache accept step preserves the pairwise similarity bound. -/
theorem chapterStep_fresh_preserves (store : List String) (q : String)
    (h : SimilarityInvariant store) :
    SimilarityInvariant (chapterStep ⟨store, store⟩ (CacheEv.tryAccept q)).store := by
  simp only [chapterStep]
  split
  next hu =>
    simp only [SimilarityInvariant, List.pairwise_append]
    refine ⟨h, List.pairwise_singleton _ _, ?_⟩
    intro a ha b hb
    rw [List.mem_singleton.mp hb]
    exact isQuestionUnique_true_sim_le q (11/20) store hu a ha
  next => exact h

/-- Claim C2, amended: When every accept-time uniqueness check reads a
*fresh* snapshot (cache refreshed immediately before the check, as when
accepts are more than the 30-second TTL apart), every stored question has
case-insensitive lexical similarity ≤ 0.55 against every prior stored
question of the chapter.  (The unamended claim — that the invariant also
survives accepts whose check reads a stale cached snapshot — is refuted by
`c2_stale_cache_counterexample`.) -/
theorem c2_fresh_cache_invariant (qs : List String) :
    SimilarityInvariant (chapterRun chapterInit (freshEvents qs)).store := by
  suffices h : ∀ (s : ChapterState), SimilarityInvariant s.store →
      SimilarityInvariant (chapterRun s (freshEvents qs)).store by
    exact h chapterInit (List.Pairwise.nil)
  induction qs with
  | nil => exact fun s hs => hs
  | cons q rest ih =>
    intro s hs
    have hsplit : freshEvents (q :: rest) =
        [CacheEv.refresh, CacheEv.tryAccept q] ++ freshEvents rest := rfl
    rw [hsplit]
    unfold chapterRun
    rw [List.foldl_append]
    have hstep : ([CacheEv.refresh, CacheEv.tryAccept q].foldl chapterStep s) =
        chapterStep ⟨s.store, s.store⟩ (CacheEv.tryAccept q) := rfl
    rw [hstep]
    exact ih _ (chapterStep_fresh_preserves s.store q hs)

/-- Model of `_should_regenerate` sends the flow back to GENERATE only while the
attempt counter is strictly below the maximum. -/
theorem shouldRegenerate_regenerate_lt (cfg : GenConfig)
    (v : Option ValidationResult) (a : Nat)
    (h : shouldRegenerate cfg v a = Route.regenerate) :
    a < cfg.maxRegenerationAttempts := by
  cases v with
  | none => exact absurd h (by simp [shouldRegenerate])
  | some v =>
    by_cases hle : cfg.maxRegenerationAttempts ≤ a
    · exfalso
      simp only [shouldRegenerate, if_pos hle] at h
      split at h <;> exact absurd h (by simp)
    · exact Nat.lt_of_not_le hle

/-- The loop invariant for claim C3: with no generation errors the
GENERATE-call count tracks the attempt counter, which never exceeds the
maximum, and the GENERATE phase is only entered strictly below it. -/
def PipeInv (cfg : GenConfig) (s : PipeState) : Prop :=
  s.generateCalls = s.generationAttempt ∧
  s.generationAttempt ≤ cfg.maxRegenerationAttempts ∧
  (s.phase = PipePhase.generating → s.generationAttempt < cfg.maxRegenerationAttempts)

/-- Error-free node executions preserve `PipeInv`. -/
theorem pipeStep_preserves_inv (cfg : GenConfig) (s s' : PipeState) (e : PipeEv)
    (he : e ≠ PipeEv.generateErr) (hstep : pipeStep cfg s e = some s')
    (hinv : PipeInv cfg s) : PipeInv cfg s' := by
  obtain ⟨h1, h2, h3⟩ := hinv
  cases e with
  | generateOk u =>
    simp only [pipeStep] at hstep
    split at hstep
    next hph =>
      obtain rfl := Option.some_injective _ hstep
      refine ⟨by simp [h1], ?_, by simp⟩
      exact Nat.succ_le_of_lt (h3 hph)
    next => exact absurd hstep (by simp)
  | generateErr => exact absurd rfl he
  | validateStep outcome =>
    simp only [pipeStep] at hstep
    split at hstep
    next hph =>
      have hng : s.phase ≠ PipePhase.generating := by rw [hph]; decide
      cases huq : s.uniquenessUnique with
      | none =>
        rw [huq] at hstep
        obtain rfl := Option.some_injective _ hstep
        exact ⟨h1, h2, by simp⟩
      | some b =>
        cases b with
        | false =>
          rw [huq] at hstep
          obtain rfl := Option.some_injective _ hstep
          exact ⟨h1, h2, by simp⟩
        | true =>
          rw [huq] at hstep
          cases outcome with
          | some v =>
            obtain rfl := Option.some_injective _ hstep
            exact ⟨h1, h2, by simp⟩
          | none =>
            obtain rfl := Option.some_injective _ hstep
            exact ⟨h1, h2, by simp⟩
    next => exact absurd hstep (by simp)
  | decideStep =>
    simp only [pipeStep] at hstep
    split at hstep
    next hph =>
      split at hstep
      next hroute =>
        obtain rfl := Option.some_injective _ hstep
        exact ⟨h1, h2, fun _ => by
          simpa [h1] using shouldRegenerate_regenerate_lt cfg s.validationResult
            s.generationAttempt hroute⟩
      next hroute =>
        obtain rfl := Option.some_injective _ hstep
        exact ⟨h1, h2, by simp⟩
      next hroute =>
        obtain rfl := Option.some_injective _ hstep
        exact ⟨h1, h2, by simp⟩
    next => exact absurd hstep (by simp)

/-- Claim C3, amended: In any legal run of one pipeline instance in which no
GENERATE execution ends in a provider error, the GENERATE stage runs at
most `max_regeneration_attempts` times.  (The unamended claim — that the
bound also covers runs containing provider-error generation calls, which
do not increment the attempt counter — is refuted by
`c3_generate_calls_counterexample`, where GENERATE runs 3 times against a
maximum of 2.) -/
theorem c3_generate_calls_bounded (cfg : GenConfig) (evs : List PipeEv)
    (s' : PipeState) (hmax : 0 < cfg.maxRegenerationAttempts)
    (herr : noGenerateErr evs = true)
    (hrun : pipeRun cfg pipeInit evs = some s') :
    s'.generateCalls ≤ cfg.maxRegenerationAttempts := by
  suffices h : ∀ (s : PipeState) (evs : List PipeEv), noGenerateErr evs = true →
      PipeInv cfg s → pipeRun cfg s evs = some s' → PipeInv cfg s' by
    have hinv0 : PipeInv cfg pipeInit := ⟨rfl, Nat.zero_le _, fun _ => hmax⟩
    obtain ⟨h1, h2, _⟩ := h pipeInit evs herr hinv0 hrun
    exact h1 ▸ h2
  intro s evs
  induction evs generalizing s with
  | nil =>
    intro _ hinv hrun
    obtain rfl := Option.some_injective _ hrun
    exact hinv
  | cons e rest ih =>
    intro hne hinv hrun
    simp only [noGenerateErr, List.all_cons, Bool.and_eq_true, decide_eq_true_eq] at hne
    simp only [pipeRun] at hrun
    cases hstep : pipeStep cfg s e with
    | none => rw [hstep] at hrun; exact absurd hrun (by simp)
    | some s1 =>
      rw [hstep] at hrun
      exact ih s1 hne.2
        (pipeStep_preserves_inv cfg s s1 e hne.1 hstep hinv) hrun

/-- Witness for `c3_generate_calls_bounded`: a complete error-free run
(generate, validate at confidence 90, decide CONTINUE) makes one GENERATE
call, within the maximum of 2. -/
theorem c3_generate_calls_bounded_witness :
    (0 < defaultConfig.maxRegenerationAttempts
      ∧ noGenerateErr [PipeEv.generateOk true,
          PipeEv.validateStep (some ⟨true, 90, true, []⟩), PipeEv.decideStep] = true
      ∧ pipeRun defaultConfig pipeInit
          [PipeEv.generateOk true,
           PipeEv.validateStep (some ⟨true, 90, true, []⟩), PipeEv.decideStep] =
          some ⟨PipePhase.finished, 1, 1, some true, some ⟨true, 90, true, []⟩, false⟩)
    ∧ (⟨PipePhase.finished, 1, 1, some true, some ⟨true, 90, true, []⟩,
        false⟩ : PipeState).generateCalls ≤ defaultConfig.maxRegenerationAttempts := by
  refine ⟨⟨by decide, by decide, by decide⟩, ?_⟩
  exact c3_generate_calls_bounded defaultConfig
    [PipeEv.generateOk true, PipeEv.validateStep (some ⟨true, 90, true, []⟩),
     PipeEv.decideStep]
    ⟨PipePhase.finished, 1, 1, some true, some ⟨true, 90, true, []⟩, false⟩
    (by decide) (by decide) (by decide)

/-- The scheduler's batch sizes: the `j`-th batch has size
`min (mc, count - j*mc)`, and there are `⌈count / mc⌉` batches. -/
theorem batchSizes_spec (mc : Nat) (hmc : 0 < mc) :
    ∀ (fuel count : Nat), count ≤ fuel →
      batchSizes mc fuel count =
        (List.range ((count + mc - 1) / mc)).map (fun j => min mc (count - j * mc)) := by
  have hzero : (0 + mc - 1) / mc = 0 := by
    rw [Nat.zero_add]
    exact Nat.div_eq_of_lt (Nat.sub_lt hmc Nat.one_pos)
  intro fuel
  induction fuel with
  | zero =>
    intro count hc
    obtain rfl := Nat.le_zero.mp hc
    rw [hzero]
    rfl
  | succ fuel ih =>
    intro count hc
    cases count with
    | zero => rw [hzero]; rfl
    | succ c =>
      have hn : (c + 1 + mc - 1) / mc = c / mc + 1 := by
        have he : c + 1 + mc - 1 = c + mc := by omega
        rw [he, Nat.add_div_right _ hmc]
      rw [hn, List.range_succ_eq_map, List.map_cons, List.map_map]
      show min mc (c + 1) :: batchSizes mc fuel (c + 1 - min mc (c + 1)) = _
      have hhead : min mc (c + 1 - 0 * mc) = min mc (c + 1) := by norm_num
      rw [hhead]
      congr 1
      by_cases hle : mc ≤ c + 1
      · rw [min_eq_left hle, ih (c + 1 - mc) (by omega)]
        have harg : c + 1 - mc + mc - 1 = c := by omega
        rw [harg]
        congr 1
        funext j
        have hmul : Nat.succ j * mc = j * mc + mc := Nat.succ_mul j mc
        simp only [Function.comp_apply, hmul]
        congr 1
        omega
      · have hmin : min mc (c + 1) = c + 1 := min_eq_right (by omega)
        have hdiv : c / mc = 0 := Nat.div_eq_of_lt (by omega)
        rw [hmin, hdiv]
        simp only [Nat.sub_self, List.range_zero, List.map_nil]
        cases fuel <;> rfl

/-- The batch sizes add up to `count`. -/
theorem batchSizes_sum (mc : Nat) (hmc : 0 < mc) :
    ∀ (fuel count : Nat), count ≤ fuel → (batchSizes mc fuel count).sum = count := by
  intro fuel
  induction fuel with
  | zero =>
    intro count hc
    obtain rfl := Nat.le_zero.mp hc
    rfl
  | succ fuel ih =>
    intro count hc
    cases count with
    | zero => rfl
    | succ c =>
      show (min mc (c + 1) :: batchSizes mc fuel (c + 1 - min mc (c + 1))).sum = c + 1
      rw [List.sum_cons, ih (c + 1 - min mc (c + 1)) (by omega)]
      omega

/-- Batch-by-batch processing flattens to a single `filterMap` over the
first `sum of sizes` outcomes: no failure suppresses any sibling's or any
later batch's successes. -/
theorem runBatchChunks_eq_filterMap {Q : Type} :
    ∀ (sizes : List Nat) (outcomes : List (Option Q)),
      runBatchChunks sizes outcomes = (outcomes.take sizes.sum).filterMap id := by
  intro sizes
  induction sizes with
  | nil => intro o; rfl
  | cons bs rest ih =>
    intro o
    show (o.take bs).filterMap id ++ runBatchChunks rest (o.drop bs) = _
    rw [ih, List.sum_cons, List.take_add, List.filterMap_append]

/-- Successes plus `none`s account for every outcome. -/
theorem length_filterMap_add_count_none {Q : Type} [DecidableEq Q] :
    ∀ (l : List (Option Q)), (l.filterMap id).length + l.count none = l.length := by
  intro l
  induction l with
  | nil => rfl
  | cons o rest ih =>
    cases o with
    | none =>
      have h1 : List.filterMap id (none :: rest) = List.filterMap id rest := by simp
      have h2 : (none :: rest).count (none : Option Q) = rest.count none + 1 := by
        simp [List.count_cons]
      rw [h1, h2, List.length_cons]
      omega
    | some q =>
      have h1 : List.filterMap id (some q :: rest) = q :: List.filterMap id rest := by
        simp
      have h2 : (some q :: rest).count (none : Option Q) = rest.count none := by
        simp [List.count_cons]
      rw [h1, h2, List.length_cons, List.length_cons]
      omega

/-- Claim C7: For `count ≥ 1` and `max_concurrent ≥ 1` the scheduler runs
`⌈count / max_concurrent⌉` successive batches, the `j`-th of size
`min(max_concurrent, remaining)` (so `count = 7, max_concurrent = 3` gives
`[3, 3, 1]`); the returned list keeps every successful instance regardless
of interleaved failures or exceptions (`qs = outcomes.filterMap id`), and
successes plus failed instances equal `count`. -/
theorem c7_batch_schedule {Q : Type} [DecidableEq Q] (count mc : Nat)
    (outcomes : List (Option Q)) (qs : List Q)
    (hmc : 0 < mc) (hcount : 0 < count) (hlen : outcomes.length = count)
    (hrun : generateBatchQuestions count mc outcomes = some qs) :
    (batchSizes mc count count).length = (count + mc - 1) / mc
    ∧ batchSizes mc count count =
        (List.range ((count + mc - 1) / mc)).map (fun j => min mc (count - j * mc))
    ∧ batchSizes 3 7 7 = [3, 3, 1]
    ∧ qs = outcomes.filterMap id
    ∧ qs.length + outcomes.count none = count := by
  have hspec := batchSizes_spec mc hmc count count le_rfl
  have hsum := batchSizes_sum mc hmc count count le_rfl
  have hq : qs = outcomes.filterMap id := by
    have : generateBatchQuestions count mc outcomes =
        some (runBatchChunks (batchSizes mc count count) outcomes) := by
      simp [generateBatchQuestions, Nat.pos_iff_ne_zero.mp hmc]
    rw [this] at hrun
    obtain rfl := Option.some_injective _ hrun.symm
    rw [runBatchChunks_eq_filterMap, hsum, ← hlen, List.take_length]
  refine ⟨?_, hspec, by decide, hq, ?_⟩
  · rw [hspec, List.length_map, List.length_range]
  · rw [hq, length_filterMap_add_count_none, hlen]

/-- Witness for `c7_batch_schedule`: seven outcomes with two failures,
`max_concurrent = 3`. -/
theorem c7_batch_schedule_witness :
    ((0 : Nat) < 3 ∧ (0 : Nat) < 7
      ∧ ([some 1, some 2, none, some 4, none, some 6, some 7] :
          List (Option Nat)).length = 7
      ∧ generateBatchQuestions 7 3
          ([some 1, some 2, none, some 4, none, some 6, some 7] :
            List (Option Nat)) = some [1, 2, 4, 6, 7])
    ∧ ((batchSizes 3 7 7).length = (7 + 3 - 1) / 3
        ∧ batchSizes 3 7 7 =
            (List.range ((7 + 3 - 1) / 3)).map (fun j => min 3 (7 - j * 3))
        ∧ batchSizes 3 7 7 = [3, 3, 1]
        ∧ [1, 2, 4, 6, 7] =
            ([some 1, some 2, none, some 4, none, some 6, some 7] :
              List (Option Nat)).filterMap id
        ∧ ([1, 2, 4, 6, 7] : List Nat).length +
            ([some 1, some 2, none, some 4, none, some 6, some 7] :
              List (Option Nat)).count none = 7) := by
  refine ⟨⟨by decide, by decide, by decide, by decide⟩, ?_⟩
  exact c7_batch_schedule 7 3
    ([some 1, some 2, none, some 4, none, some 6, some 7] : List (Option Nat))
    [1, 2, 4, 6, 7] (by decide) (by decide) (by decide) (by decide)

/-- The record written for chunk id `cid` by one `_update_chunk_quality_scores`
loop iteration, given the record (if any) previously stored for it. -/
def updatedQRec (old : Option QRec) (score : ℚ) : QRec :=
  let scores' := lastN 10 ((old.getD ⟨[], 0⟩).scores ++ [score])
  ⟨scores', scores'.sum / (scores'.length : ℚ)⟩

theorem dictGet_dictSet_self (d : List (Nat × QRec)) (k : Nat) (v : QRec) :
    dictGet (dictSet d k v) k = some v := by
  induction d with
  | nil => simp [dictSet, dictGet]
  | cons p rest ih =>
    by_cases h : p.1 = k
    · simp [dictSet, dictGet, h]
    · simpa [dictSet, dictGet, h, List.find?_cons] using ih

theorem dictGet_dictSet_other (d : List (Nat × QRec)) (k k' : Nat) (v : QRec)
    (h : k' ≠ k) : dictGet (dictSet d k v) k' = dictGet d k' := by
  induction d with
  | nil => simp [dictSet, dictGet, Ne.symm h]
  | cons p rest ih =>
    by_cases hp : p.1 = k
    · simp [dictSet, dictGet, hp, Ne.symm h, List.find?_cons]
    · by_cases hp' : p.1 = k'
      · simp [dictSet, dictGet, hp, hp', h, List.find?_cons]
      · simpa [dictSet, dictGet, hp, hp', List.find?_cons] using ih

theorem mem_dictSet (d : List (Nat × QRec)) (k : Nat) (v : QRec) :
    ∀ p ∈ dictSet d k v, p = (k, v) ∨ p ∈ d := by
  induction d with
  | nil => intro p hp; simpa [dictSet] using hp
  | cons q rest ih =>
    intro p hp
    by_cases h : q.1 = k
    · rw [dictSet] at hp
      simp only [if_pos h, List.mem_cons] at hp
      rcases hp with rfl | hp
      · exact Or.inl rfl
      · exact Or.inr (List.mem_cons_of_mem _ hp)
    · rw [dictSet] at hp
      simp only [if_neg h, List.mem_cons] at hp
      rcases hp with rfl | hp
      · exact Or.inr (List.mem_cons_self _ _)
      · rcases ih p hp with h' | h'
        · exact Or.inl h'
        · exact Or.inr (List.mem_cons_of_mem _ h')

theorem updateOneChunk_eq (d : List (Nat × QRec)) (cid : Nat) (score : ℚ) :
    updateOneChunk d cid score = dictSet d cid (updatedQRec (dictGet d cid) score) := rfl

/-- Each truncated history has at most 10 entries. -/
theorem updatedQRec_scores_le (old : Option QRec) (score : ℚ) :
    (updatedQRec old score).scores.length ≤ 10 := by
  show (lastN 10 ((old.getD ⟨[], 0⟩).scores ++ [score])).length ≤ 10
  rw [lastN, List.length_drop]
  omega

/-- The length bound is preserved by the update fold over any id list. -/
theorem foldl_update_bound (score : ℚ) :
    ∀ (l : List Nat) (d : List (Nat × QRec)),
      (∀ p ∈ d, p.2.scores.length ≤ 10) →
      ∀ p ∈ l.foldl (fun acc c => updateOneChunk acc c score) d,
        p.2.scores.length ≤ 10 := by
  intro l
  induction l with
  | nil => exact fun d h => h
  | cons cid rest ih =>
    intro d h p hp
    refine ih (updateOneChunk d cid score) ?_ p hp
    intro q hq
    rw [updateOneChunk_eq] at hq
    rcases mem_dictSet _ _ _ q hq with rfl | hq'
    · exact updatedQRec_scores_le _ _
    · exact h q hq'

/-- Ids outside the fold's list are untouched by the update fold. -/
theorem foldl_update_untouched (score : ℚ) :
    ∀ (l : List Nat) (d : List (Nat × QRec)) (cid : Nat), cid ∉ l →
      dictGet (l.foldl (fun acc c => updateOneChunk acc c score) d) cid =
        dictGet d cid := by
  intro l
  induction l with
  | nil => intro d cid _; rfl
  | cons c rest ih =>
    intro d cid h
    have hne : cid ≠ c := fun he => h (he ▸ List.mem_cons_self c rest)
    have hrest : cid ∉ rest := fun hm => h (List.mem_cons_of_mem c hm)
    show dictGet (rest.foldl (fun acc c => updateOneChunk acc c score)
      (updateOneChunk d c score)) cid = dictGet d cid
    rw [ih (updateOneChunk d c score) cid hrest, updateOneChunk_eq,
      dictGet_dictSet_other _ _ _ _ hne]

/-- With pairwise-distinct ids, every id in the fold's list ends up with
exactly the appended-then-truncated history and its fresh mean. -/
theorem foldl_update_touched (score : ℚ) :
    ∀ (l : List Nat) (d : List (Nat × QRec)), l.Nodup →
      ∀ cid ∈ l,
        dictGet (l.foldl (fun acc c => updateOneChunk acc c score) d) cid =
          some (updatedQRec (dictGet d cid) score) := by
  intro l
  induction l with
  | nil => intro d _ cid h; exact absurd h (List.not_mem_nil cid)
  | cons c rest ih =>
    intro d hnd cid hmem
    have hcr : c ∉ rest := (List.nodup_cons.mp hnd).1
    have hndr : rest.Nodup := (List.nodup_cons.mp hnd).2
    show dictGet (rest.foldl (fun acc c => updateOneChunk acc c score)
      (updateOneChunk d c score)) cid = _
    rcases List.mem_cons.mp hmem with rfl | hr
    · rw [foldl_update_untouched score rest (updateOneChunk d cid score) cid hcr,
        updateOneChunk_eq, dictGet_dictSet_self]
    · have hne : cid ≠ c := fun he => hcr (he ▸ hr)
      rw [ih (updateOneChunk d c score) hndr cid hr, updateOneChunk_eq,
        dictGet_dictSet_other _ _ _ _ hne]

/-- Claim C8: One `_update_chunk_quality_scores(chunks, score)` call touches
exactly the chunk ids of the first 3 retrieved chunks: every entry of the
updated store either is an original entry or (for a touched id) holds the
old history with `score` appended, truncated to the 10 most recent, with
`avg` the arithmetic mean of exactly the retained entries; every entry's
history stays within 10 entries. -/
theorem c8_chunk_quality_update (d : List (Nat × QRec)) (ids : List Nat)
    (score : ℚ) (hlen : ∀ p ∈ d, p.2.scores.length ≤ 10) :
    (∀ p ∈ updateChunkQualityScores d ids score, p.2.scores.length ≤ 10)
    ∧ (∀ cid ∈ ids.take 3, ((ids.take 3).Nodup →
        dictGet (updateChunkQualityScores d ids score) cid =
          some (updatedQRec (dictGet d cid) score)))
    ∧ (∀ p ∈ d, p.1 ∉ ids.take 3 →
        dictGet (updateChunkQualityScores d ids score) p.1 = dictGet d p.1) := by
  refine ⟨foldl_update_bound score (ids.take 3) d hlen, ?_, ?_⟩
  · intro cid hmem hnd
    exact foldl_update_touched score (ids.take 3) d hnd cid hmem
  · intro p _ hout
    exact foldl_update_untouched score (ids.take 3) d p.1 hout

/-- Witness for `c8_chunk_quality_update`: a store holding chunk 1 with a
full history of ten 50-scores and chunk 9 untouched; an update for chunks
`[1, 2, 3, 4]` with score 80 keeps every history within 10 entries,
appends-and-truncates for chunks 1, 2, 3 only, and leaves chunk 9 alone. -/
theorem c8_chunk_quality_update_witness :
    (∀ p ∈ [(1, (⟨[50, 50, 50, 50, 50, 50, 50, 50, 50, 50], 50⟩ : QRec)),
            (9, (⟨[40], 40⟩ : QRec))], p.2.scores.length ≤ 10)
    ∧ ((∀ p ∈ updateChunkQualityScores
          [(1, ⟨[50, 50, 50, 50, 50, 50, 50, 50, 50, 50], 50⟩), (9, ⟨[40], 40⟩)]
          [1, 2, 3, 4] 80, p.2.scores.length ≤ 10)
      ∧ (∀ cid ∈ [1, 2, 3, 4].take 3, (([1, 2, 3, 4].take 3).Nodup →
          dictGet (updateChunkQualityScores
            [(1, ⟨[50, 50, 50, 50, 50, 50, 50, 50, 50, 50], 50⟩), (9, ⟨[40], 40⟩)]
            [1, 2, 3, 4] 80) cid =
            some (updatedQRec (dictGet
              [(1, ⟨[50, 50, 50, 50, 50, 50, 50, 50, 50, 50], 50⟩), (9, ⟨[40], 40⟩)]
              cid) 80)))
      ∧ (∀ p ∈ [(1, (⟨[50, 50, 50, 50, 50, 50, 50, 50, 50, 50], 50⟩ : QRec)),
            (9, (⟨[40], 40⟩ : QRec))], p.1 ∉ [1, 2, 3, 4].take 3 →
          dictGet (updateChunkQualityScores
            [(1, ⟨[50, 50, 50, 50, 50, 50, 50, 50, 50, 50], 50⟩), (9, ⟨[40], 40⟩)]
            [1, 2, 3, 4] 80) p.1 =
            dictGet [(1, ⟨[50, 50, 50, 50, 50, 50, 50, 50, 50, 50], 50⟩),
              (9, ⟨[40], 40⟩)] p.1)) := by
  refine ⟨by decide, ?_⟩
  exact c8_chunk_quality_update
    [(1, ⟨[50, 50, 50, 50, 50, 50, 50, 50, 50, 50], 50⟩), (9, ⟨[40], 40⟩)]
    [1, 2, 3, 4] 80 (by decide)

/-- The two partitions of the retrieved results together have all the
results (as lengths). -/
theorem length_unused_add_used (results : List RChunk) (existing : List (List Nat)) :
    (unusedResultsOf results existing).length +
      (usedResultsOf results existing).length = results.length := by
  have h := List.filter_append_perm
    (fun r => isUsedChunk (usedChunkIndices existing) r) results
  have hlen := h.length_eq
  rw [List.length_append] at hlen
  rw [unusedResultsOf, usedResultsOf]
  omega

/-- Claim C9, amended: For every search-result list, chapter history,
`chunks_to_use` and permutations produced by the shuffles: with prior
questions and at least `chunks_to_use` unused results, exactly
`chunks_to_use` chunks are selected, all unused; with prior questions but
fewer unused results, the selection holds every unused result topped up
from used results, `min(chunks_to_use, |results|)` in total; with no prior
questions, `min(chunks_to_use, |results|)` chunks are sampled from all
results without partitioning.  (The unamended claim promises exactly
`chunks_to_use` chunks in the no-prior-questions case; with fewer results
than `chunks_to_use` the code returns them all —
`c9_short_results_counterexample`.) -/
theorem c9_chunk_selection (results : List RChunk) (existing : List (List Nat))
    (n : Nat) (su sv sa : List RChunk)
    (hU : su.Perm (unusedResultsOf results existing))
    (hV : sv.Perm (usedResultsOf results existing))
    (hA : sa.Perm results) :
    (existing ≠ [] → n ≤ (unusedResultsOf results existing).length →
      (selectChunks results existing n (fun _ => su) (fun _ => sv) (fun _ => sa)).length
          = n
      ∧ ∀ r ∈ selectChunks results existing n (fun _ => su) (fun _ => sv) (fun _ => sa),
          isUsedChunk (usedChunkIndices existing) r = false)
    ∧ (existing ≠ [] → (unusedResultsOf results existing).length < n →
      (∀ r ∈ unusedResultsOf results existing,
        r ∈ selectChunks results existing n (fun _ => su) (fun _ => sv) (fun _ => sa))
      ∧ (selectChunks results existing n (fun _ => su) (fun _ => sv)
          (fun _ => sa)).length = min n results.length
      ∧ ∀ r ∈ selectChunks results existing n (fun _ => su) (fun _ => sv) (fun _ => sa),
          r ∈ results)
    ∧ (existing = [] →
      (selectChunks results existing n (fun _ => su) (fun _ => sv)
          (fun _ => sa)).length = min n results.length
      ∧ ∀ r ∈ selectChunks results existing n (fun _ => su) (fun _ => sv) (fun _ => sa),
          r ∈ results) := by
  refine ⟨?_, ?_, ?_⟩
  · intro hne hge
    have hsel : selectChunks results existing n (fun _ => su) (fun _ => sv)
        (fun _ => sa) = su.take n := by
      rw [selectChunks, if_pos hne, if_pos hge]
    rw [hsel]
    constructor
    · rw [List.length_take, hU.length_eq]
      omega
    · intro r hr
      have hmem : r ∈ unusedResultsOf results existing :=
        hU.mem_iff.mp (List.mem_of_mem_take hr)
      have := List.of_mem_filter hmem
      simpa using this
  · intro hne hlt
    have hsel : selectChunks results existing n (fun _ => su) (fun _ => sv)
        (fun _ => sa) = (su ++ sv).take n := by
      rw [selectChunks, if_pos hne, if_neg (by omega)]
    have hsu : su.length = (unusedResultsOf results existing).length := hU.length_eq
    rw [hsel]
    refine ⟨?_, ?_, ?_⟩
    · intro r hr
      rw [List.take_append_eq_append_take, List.take_of_length_le (by omega)]
      exact List.mem_append_left _ (hU.mem_iff.mpr hr)
    · rw [List.length_take, List.length_append, hsu, hV.length_eq,
        length_unused_add_used]
    · intro r hr
      rcases List.mem_append.mp (List.mem_of_mem_take hr) with h | h
      · exact List.mem_of_mem_filter (hU.mem_iff.mp h)
      · exact List.mem_of_mem_filter (hV.mem_iff.mp h)
  · intro he
    have hsel : selectChunks results existing n (fun _ => su) (fun _ => sv)
        (fun _ => sa) = sa.take n := by
      rw [selectChunks, if_neg (by simp [he])]
    rw [hsel]
    constructor
    · rw [List.length_take, hA.length_eq]
    · intro r hr
      exact hA.mem_iff.mp (List.mem_of_mem_take hr)

/-- Witness for `c9_chunk_selection`: two results, one already used by the
chapter's single prior question, `chunks_to_use = 1`: the unused-first
branch selects exactly the unused chunk. -/
theorem c9_chunk_selection_witness :
    (([⟨some 2, 0⟩] : List RChunk).Perm
        (unusedResultsOf [⟨some 1, 0⟩, ⟨some 2, 0⟩] [[1]])
      ∧ ([⟨some 1, 0⟩] : List RChunk).Perm
          (usedResultsOf [⟨some 1, 0⟩, ⟨some 2, 0⟩] [[1]])
      ∧ ([⟨some 1, 0⟩, ⟨some 2, 0⟩] : List RChunk).Perm [⟨some 1, 0⟩, ⟨some 2, 0⟩])
    ∧ (([[1]] : List (List Nat)) ≠ [] →
        1 ≤ (unusedResultsOf [⟨some 1, 0⟩, ⟨some 2, 0⟩] [[1]]).length →
        (selectChunks [⟨some 1, 0⟩, ⟨some 2, 0⟩] [[1]] 1
            (fun _ => [⟨some 2, 0⟩]) (fun _ => [⟨some 1, 0⟩])
            (fun _ => [⟨some 1, 0⟩, ⟨some 2, 0⟩])).length = 1
        ∧ ∀ r ∈ selectChunks [⟨some 1, 0⟩, ⟨some 2, 0⟩] [[1]] 1
            (fun _ => [⟨some 2, 0⟩]) (fun _ => [⟨some 1, 0⟩])
            (fun _ => [⟨some 1, 0⟩, ⟨some 2, 0⟩]),
            isUsedChunk (usedChunkIndices [[1]]) r = false) := by
  refine ⟨⟨by decide, by decide, by decide⟩, ?_⟩
  exact (c9_chunk_selection [⟨some 1, 0⟩, ⟨some 2, 0⟩] [[1]] 1
    [⟨some 2, 0⟩] [⟨some 1, 0⟩] [⟨some 1, 0⟩, ⟨some 2, 0⟩]
    (by decide) (by decide) (by decide)).1

/-- Claim C4, counterexample: A text-similarity rejection's reason cites
the percentage and the *threshold*, not a snippet of the matched question:
for the stored question `"Qqqqq"` and the identical candidate, the reason
is exactly `"Text similarity 100.0% exceeds threshold (55%)"`, which
shares no character with the matched question — so no nonempty snippet of
the matched question occurs in it. -/
theorem c4_reason_snippet_counterexample :
    isQuestionUnique "Qqqqq" (11/20) ["Qqqqq"] =
      (false, "Text similarity 100.0% exceeds threshold (55%)")
    ∧ (∀ ch ∈ "Qqqqq".toList,
        ch ∉ "Text similarity 100.0% exceeds threshold (55%)".toList) := by
  exact ⟨by decide, by decide⟩

/-- A unique verdict certifies that no stored question triggers either
check, and carries the fixed reason string. -/
theorem isQuestionUnique_true_props (newQ : String) (thr : ℚ) :
    ∀ (qs : List String), (isQuestionUnique newQ thr qs).1 = true →
      (isQuestionUnique newQ thr qs).2 = "Question is unique"
      ∧ ∀ q ∈ qs, calculateQuestionSimilarity newQ q ≤ thr
        ∧ (extractMedicalTerms newQ ≠ [] → extractMedicalTerms q ≠ [] →
            termJaccard (extractMedicalTerms newQ) (extractMedicalTerms q) ≤ 7/10) := by
  intro qs
  induction qs with
  | nil => exact fun _ => ⟨rfl, fun q hq => absurd hq (List.not_mem_nil q)⟩
  | cons x rest ih =>
    intro h
    simp only [isQuestionUnique] at h ⊢
    split at h
    · exact absurd h (by simp)
    next hs =>
      split at h
      · exact absurd h (by simp)
      next hov =>
        rw [if_neg hs, if_neg hov]
        obtain ⟨hreason, hrest⟩ := ih h
        refine ⟨hreason, ?_⟩
        intro q hq
        rcases List.mem_cons.mp hq with rfl | hq'
        · refine ⟨le_of_not_lt hs, ?_⟩
          intro hnt het
          by_contra hgt
          exact hov ⟨hnt, het, lt_of_not_le hgt⟩
        · exact hrest q hq'

/-- Scanning in stored order, the first violating stored question
determines the result and the reason: a text-similarity violation yields
the percentage-and-threshold reason, and otherwise a term-overlap
violation yields the overlap-percentage reason. -/
theorem isQuestionUnique_first_violation (newQ : String) (thr : ℚ) :
    ∀ (pre : List String) (q : String) (post : List String),
      (∀ p ∈ pre, calculateQuestionSimilarity newQ p ≤ thr
        ∧ ¬(extractMedicalTerms newQ ≠ [] ∧ extractMedicalTerms p ≠ [] ∧
            7/10 < termJaccard (extractMedicalTerms newQ) (extractMedicalTerms p))) →
      (thr < calculateQuestionSimilarity newQ q →
        isQuestionUnique newQ thr (pre ++ q :: post) =
          (false, textSimReason (calculateQuestionSimilarity newQ q) thr))
      ∧ (calculateQuestionSimilarity newQ q ≤ thr →
          (extractMedicalTerms newQ ≠ [] ∧ extractMedicalTerms q ≠ [] ∧
            7/10 < termJaccard (extractMedicalTerms newQ) (extractMedicalTerms q)) →
          isQuestionUnique newQ thr (pre ++ q :: post) =
            (false, termOverlapReason (termJaccard (extractMedicalTerms newQ)
              (extractMedicalTerms q)))) := by
  intro pre
  induction pre with
  | nil =>
    intro q post _
    constructor
    · intro hlt
      simp only [List.nil_append, isQuestionUnique]
      rw [if_pos hlt]
    · intro hle hov
      simp only [List.nil_append, isQuestionUnique]
      rw [if_neg (not_lt.mpr hle), if_pos hov]
  | cons p pre' ih =>
    intro q post hpre
    obtain ⟨hple, hpov⟩ := hpre p (List.mem_cons_self p pre')
    have hpre' : ∀ r ∈ pre', calculateQuestionSimilarity newQ r ≤ thr
        ∧ ¬(extractMedicalTerms newQ ≠ [] ∧ extractMedicalTerms r ≠ [] ∧
            7/10 < termJaccard (extractMedicalTerms newQ) (extractMedicalTerms r)) :=
      fun r hr => hpre r (List.mem_cons_of_mem p hr)
    have hstep : isQuestionUnique newQ thr ((p :: pre') ++ q :: post) =
        isQuestionUnique newQ thr (pre' ++ q :: post) := by
      simp only [List.cons_append, isQuestionUnique]
      rw [if_neg (not_lt.mpr hple), if_neg hpov]
      rfl
    rw [hstep]
    exact ih q post hpre'

/-- Claim C4, amended: For every candidate and stored list, the evaluator
scans stored questions in order; for each it first compares the
case-insensitive similarity ratio against the threshold and rejects with a
reason citing the similarity percentage *and the threshold percentage*,
then compares the Jaccard overlap of the extracted term sets (when both
are nonempty) against 0.70 and rejects citing the overlap percentage; the
first violation determines the result, and absent any violation the
candidate is reported `(true, "Question is unique")`.  (The evaluator is a
total function — it never raises.  The original claim's "snippet of the
matched question" in the rejection reason is refuted by
`c4_reason_snippet_counterexample`.) -/
theorem c4_uniqueness_scan :
    (∀ (newQ : String) (thr : ℚ) (qs : List String),
      (isQuestionUnique newQ thr qs).1 = true →
        (isQuestionUnique newQ thr qs).2 = "Question is unique"
        ∧ ∀ q ∈ qs, calculateQuestionSimilarity newQ q ≤ thr
          ∧ (extractMedicalTerms newQ ≠ [] → extractMedicalTerms q ≠ [] →
              termJaccard (extractMedicalTerms newQ) (extractMedicalTerms q) ≤ 7/10))
    ∧ (∀ (newQ : String) (thr : ℚ) (pre : List String) (q : String)
        (post : List String),
      (∀ p ∈ pre, calculateQuestionSimilarity newQ p ≤ thr
        ∧ ¬(extractMedicalTerms newQ ≠ [] ∧ extractMedicalTerms p ≠ [] ∧
            7/10 < termJaccard (extractMedicalTerms newQ) (extractMedicalTerms p))) →
      (thr < calculateQuestionSimilarity newQ q →
        isQuestionUnique newQ thr (pre ++ q :: post) =
          (false, textSimReason (calculateQuestionSimilarity newQ q) thr))
      ∧ (calculateQuestionSimilarity newQ q ≤ thr →
          (extractMedicalTerms newQ ≠ [] ∧ extractMedicalTerms q ≠ [] ∧
            7/10 < termJaccard (extractMedicalTerms newQ) (extractMedicalTerms q)) →
          isQuestionUnique newQ thr (pre ++ q :: post) =
            (false, termOverlapReason (termJaccard (extractMedicalTerms newQ)
              (extractMedicalTerms q))))) :=
  ⟨fun newQ thr => isQuestionUnique_true_props newQ thr,
   fun newQ thr => isQuestionUnique_first_violation newQ thr⟩

/-- Witness for `c4_uniqueness_scan`: the duplicate candidate `"Qqqqq"`
against the single stored question `"Qqqqq"` is rejected immediately with
the text-similarity reason (similarity 1 > 0.55). -/
theorem c4_uniqueness_scan_witness :
    ((∀ p ∈ ([] : List String), calculateQuestionSimilarity "Qqqqq" p ≤ 11/20
        ∧ ¬(extractMedicalTerms "Qqqqq" ≠ [] ∧ extractMedicalTerms p ≠ [] ∧
            7/10 < termJaccard (extractMedicalTerms "Qqqqq") (extractMedicalTerms p)))
      ∧ 11/20 < calculateQuestionSimilarity "Qqqqq" "Qqqqq")
    ∧ isQuestionUnique "Qqqqq" (11/20) ([] ++ "Qqqqq" :: []) =
        (false, textSimReason (calculateQuestionSimilarity "Qqqqq" "Qqqqq") (11/20)) := by
  refine ⟨⟨fun p hp => absurd hp (List.not_mem_nil p), by decide⟩, ?_⟩
  exact (c4_uniqueness_scan.2 "Qqqqq" (11/20) [] "Qqqqq" []
    (fun p hp => absurd hp (List.not_mem_nil p))).1 (by decide)

instance : IsTotal (ℚ × Int) distLe := ⟨by
  intro x y
  rcases lt_trichotomy x.1 y.1 with h | h | h
  · exact Or.inl (Or.inl h)
  · rcases le_total x.2 y.2 with h2 | h2
    · exact Or.inl (Or.inr ⟨h, h2⟩)
    · exact Or.inr (Or.inr ⟨h.symm, h2⟩)
  · exact Or.inr (Or.inl h)⟩

instance : IsTrans (ℚ × Int) distLe := ⟨by
  intro a b c hab hbc
  rcases hab with h | ⟨he, h2⟩
  · rcases hbc with h' | ⟨he', _⟩
    · exact Or.inl (h.trans h')
    · exact Or.inl (he' ▸ h)
  · rcases hbc with h' | ⟨he', h2'⟩
    · exact Or.inl (he ▸ h')
    · exact Or.inr ⟨he.trans he', h2.trans h2'⟩⟩

/-- The modelled FAISS output lists distances in non-decreasing order
(real candidates sorted, pads at `FLT_MAX` behind them), provided every
stored vector's squared distance stays within `FLT_MAX`. -/
theorem faissSearch_pairwise (vecs : List (List ℚ)) (q : List ℚ) (sk : Nat)
    (hdist : ∀ v ∈ vecs, sqDist q v ≤ fltMax) :
    (faissSearch vecs q sk).Pairwise (fun x y => x.1 ≤ y.1) := by
  rw [faissSearch]
  have hmemdist : ∀ x ∈ (vecs.enum.map
      (fun p => (sqDist q p.2, (p.1 : Int)))), x.1 ≤ fltMax := by
    intro x hx
    obtain ⟨p, hp, rfl⟩ := List.mem_map.mp hx
    have hv : p.2 ∈ vecs := by
      have := List.enum_map_snd vecs
      rw [← this]
      exact List.mem_map_of_mem Prod.snd hp
    exact hdist p.2 hv
  refine List.pairwise_append.mpr ⟨?_, ?_, ?_⟩
  · have hs : List.Pairwise distLe ((vecs.enum.map
        (fun p => (sqDist q p.2, (p.1 : Int)))).insertionSort distLe) :=
      List.sorted_insertionSort distLe _
    have ht := List.Pairwise.sublist (List.take_sublist sk _) hs
    exact ht.imp (fun h => h.elim le_of_lt (fun h' => le_of_eq h'.1))
  · induction (sk - (vecs.enum.map
        (fun p => (sqDist q p.2, (p.1 : Int)))).length) with
    | zero => exact List.Pairwise.nil
    | succ m ihm =>
      rw [List.replicate_succ]
      refine List.pairwise_cons.mpr ⟨?_, ihm⟩
      intro y hy
      rw [List.eq_of_mem_replicate hy]
  · intro x hx y hy
    have hx' : x ∈ (vecs.enum.map
        (fun p => (sqDist q p.2, (p.1 : Int)))).insertionSort distLe :=
      List.mem_of_mem_take hx
    have hx'' := (List.perm_insertionSort distLe _).mem_iff.mp hx'
    rw [List.eq_of_mem_replicate hy]
    exact hmemdist x hx''

/-- Properties of the collection loop under a nonzero chapter filter:
at most `k` hits, all matching the filter, scores non-decreasing. -/
theorem collectHits_props (metas : List VMeta) (c : Int) (k : Nat) (hc : c ≠ 0) :
    ∀ (cand : List (ℚ × Int)) (acc hits : List SearchHit),
      collectHits metas (some c) k cand acc = some hits →
      acc.length < k →
      cand.Pairwise (fun x y => x.1 ≤ y.1) →
      acc.Pairwise (fun h1 h2 => h1.score ≤ h2.score) →
      (∀ a ∈ acc, ∀ d ∈ cand, a.score ≤ d.1) →
      (∀ a ∈ acc, a.metadata.chapter_id = some c) →
      hits.length ≤ k
      ∧ (∀ h ∈ hits, h.metadata.chapter_id = some c)
      ∧ hits.Pairwise (fun h1 h2 => h1.score ≤ h2.score) := by
  intro cand
  induction cand with
  | nil =>
    intro acc hits hrun hlt _ hpacc _ hch
    obtain rfl := Option.some_injective _ hrun
    exact ⟨Nat.le_of_lt hlt, hch, hpacc⟩
  | cons d rest ih =>
    intro acc hits hrun hlt hpc hpacc hcross hch
    obtain ⟨dist, idx⟩ := d
    have hphead := (List.pairwise_cons.mp hpc).1
    have hptail := (List.pairwise_cons.mp hpc).2
    simp only [collectHits] at hrun
    split at hrun
    · exact ih acc hits hrun hlt hptail hpacc
        (fun a ha d' hd' => hcross a ha d' (List.mem_cons_of_mem _ hd')) hch
    next hidx =>
      split at hrun
      · exact absurd hrun (by simp)
      next meta hget =>
        split at hrun
        · exact ih acc hits hrun hlt hptail hpacc
            (fun a ha d' hd' => hcross a ha d' (List.mem_cons_of_mem _ hd')) hch
        next hkeep =>
          have hchap : meta.chapter_id = some c := by
            by_contra hne
            exact hkeep (by simp [dropHit, hc, hne])
          have hpacc' : (acc ++ [(⟨meta, dist, idx⟩ : SearchHit)]).Pairwise
              (fun h1 h2 => h1.score ≤ h2.score) := by
            refine List.pairwise_append.mpr
              ⟨hpacc, List.pairwise_singleton _ _, ?_⟩
            intro a ha b hb
            rw [List.mem_singleton.mp hb]
            exact hcross a ha (dist, idx) (List.mem_cons_self _ _)
          have hch' : ∀ a ∈ acc ++ [⟨meta, dist, idx⟩],
              a.metadata.chapter_id = some c := by
            intro a ha
            rcases List.mem_append.mp ha with h' | h'
            · exact hch a h'
            · rw [List.mem_singleton.mp h']; exact hchap
          split at hrun
          next hfull =>
            obtain rfl := Option.some_injective _ hrun
            refine ⟨?_, hch', hpacc'⟩
            rw [List.length_append, List.length_singleton]
            omega
          next hnotfull =>
            refine ih (acc ++ [⟨meta, dist, idx⟩]) hits hrun ?_ hptail hpacc' ?_ hch'
            · rw [List.length_append, List.length_singleton]
              rw [List.length_append, List.length_singleton] at hnotfull
              omega
            · intro a ha d' hd'
              rcases List.mem_append.mp ha with h' | h'
              · exact hcross a h' d' (List.mem_cons_of_mem _ hd')
              · rw [List.mem_singleton.mp h']
                exact hphead d' hd'

/-- Claim C6, amended: For every index state, query, `k ≥ 1` and *nonzero*
chapter filter `c` (distances within `FLT_MAX`): `search` internally
requests `k*3` candidates and scans them in distance order, and any result
list it returns has at most `k` hits, every hit's metadata `chapter_id`
equal to the filter, in non-decreasing distance order.  (For the falsy
filter value 0 the code disables both the `k*3` oversampling and the
filtering — `c6_zero_filter_counterexample`.) -/
theorem c6_filtered_search (vecs : List (List ℚ)) (metas : List VMeta)
    (q : List ℚ) (k : Nat) (c : Int) (hits : List SearchHit)
    (hk : 0 < k) (hc : c ≠ 0)
    (hdist : ∀ v ∈ vecs, sqDist q v ≤ fltMax)
    (hrun : search vecs metas q k (some c) = some hits) :
    search vecs metas q k (some c) =
      collectHits metas (some c) k (faissSearch vecs q (k * 3)) []
    ∧ hits.length ≤ k
    ∧ (∀ h ∈ hits, h.metadata.chapter_id = some c)
    ∧ hits.Pairwise (fun h1 h2 => h1.score ≤ h2.score) := by
  have hek : search vecs metas q k (some c) =
      collectHits metas (some c) k (faissSearch vecs q (k * 3)) [] := by
    simp [search, hc]
  rw [hek] at hrun
  obtain ⟨h1, h2, h3⟩ := collectHits_props metas c k hc
    (faissSearch vecs q (k * 3)) [] hits hrun (by simpa using hk)
    (faissSearch_pairwise vecs q (k * 3) hdist) List.Pairwise.nil
    (by simp) (by simp)
  exact ⟨hek, h1, h2, h3⟩

/-- Witness for `c6_filtered_search`: two stored vectors in chapters 7 and
3, `search(q, k=1, filter_chapter=7)` returns the single chapter-7 hit. -/
theorem c6_filtered_search_witness :
    ((0 : Nat) < 1 ∧ (7 : Int) ≠ 0
      ∧ (∀ v ∈ [[(0 : ℚ)], [2]], sqDist [0] v ≤ fltMax)
      ∧ search [[(0 : ℚ)], [2]] [⟨some 7, some 0⟩, ⟨some 3, some 1⟩] [0] 1 (some 7) =
          some [⟨⟨some 7, some 0⟩, 0, 0⟩])
    ∧ (search [[(0 : ℚ)], [2]] [⟨some 7, some 0⟩, ⟨some 3, some 1⟩] [0] 1 (some 7) =
        collectHits [⟨some 7, some 0⟩, ⟨some 3, some 1⟩] (some 7) 1
          (faissSearch [[(0 : ℚ)], [2]] [0] (1 * 3)) []
      ∧ ([⟨⟨some 7, some 0⟩, 0, 0⟩] : List SearchHit).length ≤ 1
      ∧ (∀ h ∈ ([⟨⟨some 7, some 0⟩, 0, 0⟩] : List SearchHit),
          h.metadata.chapter_id = some 7)
      ∧ ([⟨⟨some 7, some 0⟩, 0, 0⟩] : List SearchHit).Pairwise
          (fun h1 h2 => h1.score ≤ h2.score)) := by
  refine ⟨⟨by decide, by decide, by decide, by decide⟩, ?_⟩
  exact c6_filtered_search [[(0 : ℚ)], [2]] [⟨some 7, some 0⟩, ⟨some 3, some 1⟩]
    [0] 1 7 [⟨⟨some 7, some 0⟩, 0, 0⟩] (by decide) (by decide) (by decide) (by decide)

end MedBot
